import Mathlib

/-!
Verification development for the half-plane intersection core
(`algo/geo2d/halfplane-intersect.py`).

The file embeds the Python sketch `halfplane_intersect` over exact rational
coordinates.  The point class `P` and line class `L` are not part of the
repository's sources (the sketch says they are assumed); their operations are
modelled from the specification's formulas and carry a doc comment saying so.
The body of `halfplane_intersect` itself is translated line by line from the
sketch.
-/

/--2D point / vector with rational coordinates (the class `P` assumed by the
sketch; coordinates are modelled exactly rather than as floating point). -/
structure P where
  x : ℚ
  y : ℚ
deriving DecidableEq

/-- Modelled from the spec: `rotate90()` returns `(-y, x)`, the 90° counter
clockwise rotation (`P.rot` in the sketch's prose). -/
def P.rot (p : P) : P := ⟨-p.y, p.x⟩

/-- Vector subtraction (spec §4.1: standard affine operation). -/
def P.sub (a b : P) : P := ⟨a.x - b.x, a.y - b.y⟩

/-- Vector addition (spec §4.1: standard affine operation). -/
def P.add (a b : P) : P := ⟨a.x + b.x, a.y + b.y⟩

/-- Scaling a vector by a rational factor (spec §4.1). -/
def P.smul (t : ℚ) (a : P) : P := ⟨t * a.x, t * a.y⟩

/-- Modelled from the spec: `cross(a, b) = a.x*b.y - a.y*b.x`. -/
def cross (a b : P) : ℚ := a.x * b.y - a.y * b.x

/-- Modelled from the spec: `dot(a, b)`, the standard inner product; this is
the `*` operator on points used by the sketch in `H[i].d * q[-1].d < 0`. -/
def dot (a b : P) : ℚ := a.x * b.x + a.y * b.y

/-- Error outcomes named by the specification's error taxonomy (§7).
`degenerateGeometry` is raised by `intersection` on parallel lines;
`invalidInput` is the taxonomy's zero-direction rejection. -/
inductive GeoErr where
  | degenerateGeometry
  | invalidInput
deriving DecidableEq

/-- Directed line `origin + t*direction` whose allowed half-plane is its left
side (the class `L` assumed by the sketch, field names `o` and `d` as used by
the sketch). -/
structure L where
  o : P
  d : P
deriving DecidableEq

/-- Modelled from the spec (§4.2): `side(p) = cross(direction, p - origin)`;
positive values are on the left (inside) of the directed line. -/
def L.side (l : L) (p : P) : ℚ := cross l.d (p.sub l.o)

/-- Modelled from the spec (§4.2): two lines are parallel iff the cross
product of their directions vanishes.  The spec compares `|cross|` against the
tolerance, but the sketch in the sources supplies no tolerance anywhere, so
the comparison is exact (tolerance zero). -/
def L.parallel (a b : L) : Prop := cross a.d b.d = 0

instance (a b : L) : Decidable (L.parallel a b) :=
  inferInstanceAs (Decidable (cross a.d b.d = 0))

/-- Modelled from the spec and the sketch's interface description:
`intersection(other)` returns the intersection point of the two lines
(Cramer's rule), and parallel input is the Degenerate-Geometry error (§4.2,
§7).  The parameter `t` is the solution of
`cross(other.direction, origin + t*direction - other.origin) = 0`, so the
returned point lies on both lines (`intersection_mem` below). -/
def L.intersection (a b : L) : Except GeoErr P :=
  let den := cross b.d a.d
  if den = 0 then .error .degenerateGeometry
  else .ok (a.o.add (P.smul (cross b.d (b.o.sub a.o) / den) a.d))

/-- Modelled from the spec: `angle()` is `atan2(y, x) ∈ (-π, π]` and is used
only as a sort key, so it is embedded as the index of the half-plane the
vector lies in: `0` for angles in `(-π, 0)`, `1` for angle `0` (including the
zero vector, as `atan2(0, 0) = 0`), `2` for angles in `(0, π)`, `3` for angle
`π`. -/
def angHalf (p : P) : ℕ :=
  if p.y < 0 then 0
  else if p.y = 0 ∧ 0 ≤ p.x then 1
  else if 0 < p.y then 2
  else 3

/-- Modelled from the spec: the strict order induced by `angle()`.  Within one
open half-plane of directions the angle order agrees with the sign of the
cross product; vectors in the same closed axis class (`angHalf` 1 or 3) are
collinear, so their cross product is zero and neither is smaller. -/
def angLtB (a b : P) : Bool :=
  decide (angHalf a < angHalf b) ||
    (decide (angHalf a = angHalf b) && decide (0 < cross a b))

/-- The sketch's `H.sort(key=lambda line: line.d.angle())`: a stable sort by
the angle of the direction vector.  Python's sort is stable, and the output of
a stable sort is uniquely determined by the key order, so it is embedded as a
stable insertion sort with the non-strict comparison `angle a ≤ angle b`. -/
def sortH (H : List L) : List L :=
  List.insertionSort (fun a b => angLtB b.d a.d = false) H

/-- The sketch's module constant `INF = 10**18`. -/
def INF : ℚ := 1000000000000000000

/-- The seed bounding half-plane `bb = L(P(-INF, -INF), P(INF, 0))`. -/
def bbSeed : L := ⟨⟨-INF, -INF⟩, ⟨INF, 0⟩⟩

/-- Rotating a line's origin and direction by 90°, the loop body
`bb.o = bb.o.rot(); bb.d = bb.d.rot()`. -/
def rotL (l : L) : L := ⟨l.o.rot, l.d.rot⟩

/-- A cell of the working list during the bounding loop.  In Python,
`H.append(bb)` appends a reference to the single mutable object `bb`, so the
list holds either an original input half-plane by value or a reference to
`bb`. -/
inductive Entry where
  | orig (l : L)
  | bbRef
deriving DecidableEq

/-- Reading a cell once the loop is over: a `bbRef` cell observes the final
state of the mutated `bb` object. -/
def deref (bb : L) : Entry → L
  | .orig l => l
  | .bbRef => bb

/-- The bounding loop `for k in range(4): H.append(bb); bb.o = bb.o.rot();
bb.d = bb.d.rot()`, as state passing over (list cells, current `bb` state). -/
def bbLoop : ℕ → List Entry × L → List Entry × L
  | 0, s => s
  | k + 1, (es, bb) => bbLoop k (es ++ [Entry.bbRef], rotL bb)

/-- The working list right after the bounding loop, as later code observes it:
each appended cell is a reference to the one `bb` object, dereferenced at its
state after all four in-place rotations. -/
def augment (H : List L) : List L :=
  let s := bbLoop 4 (H.map Entry.orig, bbSeed)
  s.1.map (deref s.2)

/-- The last two elements `(q[-1], q[-2])` of the deque, if it has two. -/
def back2 (q : List L) : Option (L × L) :=
  match q.reverse with
  | b1 :: b2 :: _ => some (b1, b2)
  | _ => none

/-- The first two elements `(q[0], q[1])` of the deque, if it has two. -/
def front2 (q : List L) : Option (L × L) :=
  match q with
  | f1 :: f2 :: _ => some (f1, f2)
  | _ => none

/-- The sketch's back-popping loop
`while len(q) >= 2 and H[i].side(q[-1].intersection(q[-2])) > 0: q.pop()`,
with fuel (one unit per pop; `q.length` always suffices). -/
def popBackLoop : ℕ → L → List L → Except GeoErr (List L)
  | 0, _, q => .ok q
  | fuel + 1, h, q =>
    match back2 q with
    | none => .ok q
    | some (b1, b2) =>
      match b1.intersection b2 with
      | .error e => .error e
      | .ok p => if 0 < h.side p then popBackLoop fuel h q.dropLast else .ok q

/-- The sketch's front-popping loop
`while len(q) >= 2 and H[i].side(q[0].intersection(q[1])) > 0: q.pop(0)`. -/
def popFrontLoop : ℕ → L → List L → Except GeoErr (List L)
  | 0, _, q => .ok q
  | fuel + 1, h, q =>
    match front2 q with
    | none => .ok q
    | some (f1, f2) =>
      match f1.intersection f2 with
      | .error e => .error e
      | .ok p => if 0 < h.side p then popFrontLoop fuel h q.tail else .ok q

/-- One iteration of the sketch's main `for` loop for the half-plane `h`:
both pop loops, then the parallel-handling branch, then the append.  The
result is `none` when the sketch executes `return []` (opposite-facing
parallel pair). -/
def sweepStep (q : List L) (h : L) : Except GeoErr (Option (List L)) :=
  match popBackLoop q.length h q with
  | .error e => .error e
  | .ok q1 =>
    match popFrontLoop q1.length h q1 with
    | .error e => .error e
    | .ok q2 =>
      match q2.getLast? with
      | some b =>
        if L.parallel h b then
          if dot h.d b.d < 0 then .ok none
          else if 0 < h.side b.o then .ok (some (q2.dropLast ++ [h]))
          else .ok (some q2)
        else .ok (some (q2 ++ [h]))
      | none => .ok (some (q2 ++ [h]))

/-- The sketch's main `for i in range(len(H))` loop over the sorted list. -/
def sweepList (q : List L) : List L → Except GeoErr (Option (List L))
  | [] => .ok (some q)
  | h :: rest =>
    match sweepStep q h with
    | .error e => .error e
    | .ok none => .ok none
    | .ok (some q2) => sweepList q2 rest

/-- The sketch's first cleanup loop
`while len(q) >= 3 and q[0].side(q[-1].intersection(q[-2])) > 0: q.pop()`. -/
def trimBackLoop : ℕ → List L → Except GeoErr (List L)
  | 0, q => .ok q
  | fuel + 1, q =>
    if 3 ≤ q.length then
      match q.head?, back2 q with
      | some f, some (b1, b2) =>
        match b1.intersection b2 with
        | .error e => .error e
        | .ok p => if 0 < f.side p then trimBackLoop fuel q.dropLast else .ok q
      | _, _ => .ok q
    else .ok q

/-- The sketch's second cleanup loop
`while len(q) >= 3 and q[-1].side(q[0].intersection(q[1])) > 0: q.pop(0)`. -/
def trimFrontLoop : ℕ → List L → Except GeoErr (List L)
  | 0, q => .ok q
  | fuel + 1, q =>
    if 3 ≤ q.length then
      match q.getLast?, front2 q with
      | some b, some (f1, f2) =>
        match f1.intersection f2 with
        | .error e => .error e
        | .ok p => if 0 < b.side p then trimFrontLoop fuel q.tail else .ok q
      | _, _ => .ok q
    else .ok q

/-- The sketch's vertex extraction loop
`for i in range(n): ps.append(q[i].intersection(q[(i + 1) % n]))`, over the
list of consecutive circular pairs. -/
def extractLoop : List (L × L) → Except GeoErr (List P)
  | [] => .ok []
  | (a, b) :: rest =>
    match a.intersection b with
    | .error e => .error e
    | .ok p =>
      match extractLoop rest with
      | .error e => .error e
      | .ok ps => .ok (p :: ps)

/-- The consecutive circular pairs `(q[i], q[(i+1) % n])` of the deque. -/
def circPairs (q : List L) : List (L × L) :=
  q.zip (q.drop 1 ++ q.take 1)

/-- The sketch's `halfplane_intersect(H)`: bounding augmentation (with the
aliasing of the single `bb` object), stable angular sort, deque sweep, final
trims, and vertex extraction.  `.ok []` is the empty polygon, `.error` is a
crash of the sketch (Degenerate-Geometry: a division by zero inside
`intersection`). -/
def halfplane_intersect (H : List L) : Except GeoErr (List P) :=
  match sweepList [] (sortH (augment H)) with
  | .error e => .error e
  | .ok none => .ok []
  | .ok (some q0) =>
    match trimBackLoop q0.length q0 with
    | .error e => .error e
    | .ok q1 =>
      match trimFrontLoop q1.length q1 with
      | .error e => .error e
      | .ok q2 =>
        if q2.length < 3 then .ok []
        else extractLoop (circPairs q2)

/-- The caller's list after a call, for the frame-effect analysis: the sketch
appends the four bounding cells to the caller's list in place and sorts it in
place, so this is what the caller's variable refers to afterwards. -/
def callerListAfter (H : List L) : List L := sortH (augment H)

/-! Concrete inputs used by the analyses below.  `ptC` is the point
`(0, -INF)`, which lies on the line of the bounding half-plane `bbSeed`
(the line `y = -INF`); the half-planes `exh1`–`exh3` all have their lines
through `ptC`, and `exh4` is a constraint whose line misses `ptC`, with
`ptC` strictly on its outside. -/

/-- Common point `(0, -INF)` of the example constraint lines. -/
def ptC : P := ⟨0, -INF⟩

/-- Example input half-plane through `ptC` with direction `(0, 1)`. -/
def exh1 : L := ⟨ptC, ⟨0, 1⟩⟩

/-- Example input half-plane through `ptC` with direction `(-1, -1)`. -/
def exh2 : L := ⟨ptC, ⟨-1, -1⟩⟩

/-- Example input half-plane through `ptC` with direction `(1, -1)`. -/
def exh3 : L := ⟨ptC, ⟨1, -1⟩⟩

/-- Example input half-plane through `(0, -INF + 1)` with direction `(1, 1)`:
the point `ptC` is strictly outside it (`exh4.side ptC = -1`). -/
def exh4 : L := ⟨⟨0, -INF + 1⟩, ⟨1, 1⟩⟩

/-- A half-plane with zero direction vector (invalid per the spec). -/
def zHp : L := ⟨⟨0, 0⟩, ⟨0, 0⟩⟩

/-- Collinear opposite-facing pair: same line through `ptC`, directions
`(-1, -1)` and `(1, 1)`. -/
def haCol : L := ⟨ptC, ⟨-1, -1⟩⟩

/-- Other half of the collinear opposite-facing pair. -/
def hzCol : L := ⟨ptC, ⟨1, 1⟩⟩

/-- Back element for the parallel-handling analysis: allows `y ≥ 0`. -/
def c5b : L := ⟨⟨0, 0⟩, ⟨1, 0⟩⟩

/-- Parallel same-facing half-plane allowing `y ≥ 1`: strictly more
restrictive than `c5b`, and `c5b`'s origin violates it. -/
def c5h : L := ⟨⟨0, 1⟩, ⟨1, 0⟩⟩

/-- Parallel same-facing half-plane allowing `y ≥ -1`: strictly less
restrictive than `c5b`. -/
def c5hLoose : L := ⟨⟨0, -1⟩, ⟨1, 0⟩⟩

/-- The x-axis half-plane used in the tolerance analysis. -/
def c7a : L := ⟨⟨0, 0⟩, ⟨1, 0⟩⟩

/-- The y-axis half-plane used in the tolerance analysis;
`c7b.intersection c7a` is the origin. -/
def c7b : L := ⟨⟨0, 0⟩, ⟨0, 1⟩⟩

/-- A half-plane whose side value at the origin is `10⁻¹⁰`, far below the
spec's suggested tolerance `10⁻⁹`. -/
def c7h : L := ⟨⟨0, -(1/10000000000)⟩, ⟨1, 0⟩⟩

/-- Length of the deque carried by a pop/trim loop result (`0` for a crash);
used to state the resource bounds of the loops. -/
def exceptLen : Except GeoErr (List L) → ℕ
  | .error _ => 0
  | .ok q => q.length

/-- Length of the deque carried by a sweep result (`0` for a crash or for the
early empty-intersection return). -/
def stepLen : Except GeoErr (Option (List L)) → ℕ
  | .error _ => 0
  | .ok none => 0
  | .ok (some q) => q.length

set_option maxRecDepth 100000

/-- C1: refuted on the code (code bug).  On the four-constraint input
`[exh1, exh2, exh3, exh4]` the sketch returns a non-empty polygon whose
vertices are all `ptC`, yet `ptC` is strictly outside the original input
half-plane `exh4` (`exh4.side ptC = -1 < -ε` for the suggested tolerance
`10⁻⁹` and indeed any `ε < 1`), so a returned vertex violates an input
constraint. -/
theorem c1_containment_violated :
    halfplane_intersect [exh1, exh2, exh3, exh4] = .ok [ptC, ptC, ptC, ptC] ∧
      L.side exh4 ptC = -1 ∧ L.side exh4 ptC < -(1 / 1000000000) := by
  refine ⟨by with_unfolding_all rfl, by with_unfolding_all rfl, ?_⟩
  have h : L.side exh4 ptC = -1 := by with_unfolding_all rfl
  rw [h]; norm_num

/-- C2: refuted on the code (code bug).  While the sweep processes `exh1`
with deque `[exh2, exh3, bbSeed, exh4]`, the intersection of the last two
deque elements is `(-1, -INF)` with `exh1.side = 1 > 0`: the point is
strictly *inside* the incoming half-plane under the spec's side convention,
yet the back loop pops `exh4` (the code pops while `side > 0`, not while
`side < -ε`).  Symmetrically, with incoming `exh4` and deque
`[exh2, exh3, bbSeed]`, the back pair meets at `ptC`, which is strictly
*outside* `exh4` (`side = -1`), yet nothing is popped. -/
theorem c2_pops_inside_keeps_outside :
    (popBackLoop 4 exh1 [exh2, exh3, bbSeed, exh4] = .ok [exh2, exh3, bbSeed] ∧
        L.intersection exh4 bbSeed = .ok ⟨-1, -INF⟩ ∧
        L.side exh1 ⟨-1, -INF⟩ = 1) ∧
      popBackLoop 3 exh4 [exh2, exh3, bbSeed] = .ok [exh2, exh3, bbSeed] ∧
        L.intersection bbSeed exh3 = .ok ptC ∧
        L.side exh4 ptC = -1 := by
  exact ⟨⟨by with_unfolding_all rfl, by with_unfolding_all rfl,
    by with_unfolding_all rfl⟩, by with_unfolding_all rfl,
    by with_unfolding_all rfl, by with_unfolding_all rfl⟩

/-- C3: refuted on the code (code bug).  `H.append(bb)` appends four
references to the single mutable `bb` object, whose origin and direction are
then rotated in place; after the four in-place rotations the object is back
at its seed state, so all four appended bounding entries are identical, with
a single direction `(INF, 0)` — not four half-planes with distinct
directions. -/
theorem c3_bounding_entries_aliased :
    augment [] = [bbSeed, bbSeed, bbSeed, bbSeed] ∧
      (augment []).map L.d = [⟨INF, 0⟩, ⟨INF, 0⟩, ⟨INF, 0⟩, ⟨INF, 0⟩] ∧
      rotL (rotL (rotL (rotL bbSeed))) = bbSeed := by
  exact ⟨by with_unfolding_all rfl, by with_unfolding_all rfl,
    by with_unfolding_all rfl⟩

/-- C4: refuted on the code (code bug).  On the empty input the working set
consists of the four aliased copies of the single bounding half-plane; the
duplicates are discarded by the parallel-handling branch, the final deque has
one element, and the sketch returns the empty polygon instead of the
bounding-frame square. -/
theorem c4_empty_input_returns_empty :
    halfplane_intersect [] = .ok [] := by
  with_unfolding_all rfl

/-- C5: refuted on the code (code bug).  With back element `c5b` (allows
`y ≥ 0`): the strictly more restrictive parallel half-plane `c5h` (allows
`y ≥ 1`; `c5b`'s origin violates it, `c5h.side c5b.o = -1 < 0`) is discarded
and the deque is left unchanged, while the strictly less restrictive `c5hLoose`
(allows `y ≥ -1`; `c5hLoose.side c5b.o = 1 > 0`) replaces `c5b`.  The code
keeps the looser of two same-facing parallel constraints — the opposite of
the claim. -/
theorem c5_parallel_keeps_looser :
    (sweepStep [c5b] c5h = .ok (some [c5b]) ∧ L.side c5h c5b.o = -1) ∧
      sweepStep [c5b] c5hLoose = .ok (some [c5hLoose]) ∧
        L.side c5hLoose c5b.o = 1 := by
  exact ⟨⟨by with_unfolding_all rfl, by with_unfolding_all rfl⟩,
    by with_unfolding_all rfl, by with_unfolding_all rfl⟩

/-- C6: refuted on the code (code bug).  On the valid two-element input
`[haCol, hzCol]` (two non-zero-direction half-planes sharing a line, facing
opposite ways) the final deque is `[haCol, bbSeed, hzCol]` and the vertex
extraction calls `intersection` on the circular wraparound pair
`(hzCol, haCol)`, which is parallel: the Degenerate-Geometry branch is
reached (in Python, a division by zero). -/
theorem c6_degenerate_geometry_reachable :
    halfplane_intersect [haCol, hzCol] = .error .degenerateGeometry ∧
      L.parallel hzCol haCol := by
  exact ⟨by with_unfolding_all rfl, by with_unfolding_all rfl⟩

/-- C7 counterexample: the sweep's back-pop comparison is not made against a
positive tolerance.  With incoming `c7h` and deque `[c7a, c7b]`, the back
pair meets at the origin, whose side value `10⁻¹⁰` is within the spec's
suggested tolerance `10⁻⁹` of zero (a boundary point, neither strictly inside
nor strictly outside), yet the strict `> 0` comparison fires and pops. -/
theorem c7_counterexample :
    popBackLoop 2 c7h [c7a, c7b] = .ok [c7a] ∧
      L.intersection c7b c7a = .ok ⟨0, 0⟩ ∧
      L.side c7h ⟨0, 0⟩ = 1 / 10000000000 ∧
      |L.side c7h ⟨0, 0⟩| ≤ 1 / 1000000000 := by
  refine ⟨by with_unfolding_all rfl, by with_unfolding_all rfl,
    by with_unfolding_all rfl, ?_⟩
  have h : L.side c7h ⟨0, 0⟩ = 1 / 10000000000 := by with_unfolding_all rfl
  rw [h, abs_of_pos (by norm_num : (0:ℚ) < 1 / 10000000000)]
  norm_num

/-- C8 counterexample: a call whose input contains the zero-direction
half-plane `zHp` is not rejected: no Invalid-Input error is reported; the
invalid half-plane flows through the sort and the sweep (it is parallel to
everything) and the call returns the empty polygon normally. -/
theorem c8_counterexample :
    halfplane_intersect [zHp] = .ok [] := by
  with_unfolding_all rfl

/-- C9 counterexample: the caller-supplied collection is changed by the call.
For the empty input (length 0) the caller's list afterwards holds the four
aliased bounding entries: its length grew from 0 to 4, so the collection is
not left unchanged. -/
theorem c9_counterexample :
    callerListAfter [] = [bbSeed, bbSeed, bbSeed, bbSeed] ∧
      (callerListAfter []).length = 4 ∧ ([] : List L).length = 0 := by
  exact ⟨by with_unfolding_all rfl, by with_unfolding_all rfl, rfl⟩

/-- Sanity check of the modelled `intersection`: a returned point lies on both
input lines. -/
theorem intersection_mem (a b : L) (p : P)
    (h : L.intersection a b = .ok p) : a.side p = 0 ∧ b.side p = 0 := by
  unfold L.intersection at h
  dsimp only at h
  split at h
  · exact Except.noConfusion h
  · next hden =>
    injection h with h
    subst h
    constructor
    · simp only [L.side, cross, P.add, P.sub, P.smul]
      ring
    · have ht : cross b.d (b.o.sub a.o) / cross b.d a.d * cross b.d a.d
          = cross b.d (b.o.sub a.o) := div_mul_cancel₀ _ hden
      simp only [L.side, cross, P.add, P.sub, P.smul] at ht ⊢
      linear_combination ht

theorem intersection_error_eq {a b : L} {e : GeoErr}
    (h : L.intersection a b = .error e) : e = .degenerateGeometry := by
  unfold L.intersection at h
  dsimp only at h
  split at h
  · injection h with h
    exact h.symm
  · exact Except.noConfusion h

theorem back2_some_len {q : List L} {pr : L × L} (h : back2 q = some pr) :
    2 ≤ q.length := by
  unfold back2 at h
  split at h
  · next b1 b2 t heq =>
    have hl : q.reverse.length = t.length + 2 := by rw [heq]; simp
    have hr : q.reverse.length = q.length := q.length_reverse
    omega
  · exact Option.noConfusion h

theorem front2_some_len {q : List L} {pr : L × L} (h : front2 q = some pr) :
    2 ≤ q.length := by
  unfold front2 at h
  split at h
  · next f1 f2 t => simp [List.length_cons]
  · exact Option.noConfusion h

theorem popBackLoop_nil (h : L) (f : ℕ) : popBackLoop f h [] = .ok [] := by
  cases f <;> simp [popBackLoop, back2]

theorem popFrontLoop_nil (h : L) (f : ℕ) : popFrontLoop f h [] = .ok [] := by
  cases f <;> simp [popFrontLoop, front2]

theorem popBackLoop_len (h : L) : ∀ (f : ℕ) (q : List L),
    exceptLen (popBackLoop f h q) ≤ q.length := by
  intro f
  induction f with
  | zero => intro q; simp [popBackLoop, exceptLen]
  | succ n ih =>
    intro q
    unfold popBackLoop
    split
    · simp [exceptLen]
    · split
      · simp [exceptLen]
      · split
        · calc exceptLen (popBackLoop n h q.dropLast) ≤ q.dropLast.length := ih _
            _ ≤ q.length := by rw [List.length_dropLast]; omega
        · simp [exceptLen]

theorem popFrontLoop_len (h : L) : ∀ (f : ℕ) (q : List L),
    exceptLen (popFrontLoop f h q) ≤ q.length := by
  intro f
  induction f with
  | zero => intro q; simp [popFrontLoop, exceptLen]
  | succ n ih =>
    intro q
    unfold popFrontLoop
    split
    · simp [exceptLen]
    · split
      · simp [exceptLen]
      · split
        · calc exceptLen (popFrontLoop n h q.tail) ≤ q.tail.length := ih _
            _ ≤ q.length := by rw [List.length_tail]; omega
        · simp [exceptLen]

theorem popBackLoop_fuel_mono (h : L) : ∀ (f g : ℕ) (q : List L),
    q.length ≤ f → q.length ≤ g →
    popBackLoop f h q = popBackLoop g h q := by
  intro f
  induction f with
  | zero =>
    intro g q hf _
    have hq : q = [] := List.length_eq_zero.mp (Nat.le_zero.mp hf)
    subst hq
    rw [popBackLoop_nil, popBackLoop_nil]
  | succ n ih =>
    intro g q hf hg
    cases g with
    | zero =>
      have hq : q = [] := List.length_eq_zero.mp (Nat.le_zero.mp hg)
      subst hq
      rw [popBackLoop_nil, popBackLoop_nil]
    | succ m =>
      cases hb : back2 q with
      | none => simp [popBackLoop, hb]
      | some pr =>
        obtain ⟨b1, b2⟩ := pr
        cases hi : b1.intersection b2 with
        | error e => simp [popBackLoop, hb, hi]
        | ok p =>
          by_cases hs : 0 < h.side p
          · have h2 := back2_some_len hb
            simp only [popBackLoop, hb, hi, if_pos hs]
            apply ih
            · rw [List.length_dropLast]; omega
            · rw [List.length_dropLast]; omega
          · simp [popBackLoop, hb, hi, if_neg hs]

theorem popFrontLoop_fuel_mono (h : L) : ∀ (f g : ℕ) (q : List L),
    q.length ≤ f → q.length ≤ g →
    popFrontLoop f h q = popFrontLoop g h q := by
  intro f
  induction f with
  | zero =>
    intro g q hf _
    have hq : q = [] := List.length_eq_zero.mp (Nat.le_zero.mp hf)
    subst hq
    rw [popFrontLoop_nil, popFrontLoop_nil]
  | succ n ih =>
    intro g q hf hg
    cases g with
    | zero =>
      have hq : q = [] := List.length_eq_zero.mp (Nat.le_zero.mp hg)
      subst hq
      rw [popFrontLoop_nil, popFrontLoop_nil]
    | succ m =>
      cases hb : front2 q with
      | none => simp [popFrontLoop, hb]
      | some pr =>
        obtain ⟨f1, f2⟩ := pr
        cases hi : f1.intersection f2 with
        | error e => simp [popFrontLoop, hb, hi]
        | ok p =>
          by_cases hs : 0 < h.side p
          · have h2 := front2_some_len hb
            simp only [popFrontLoop, hb, hi, if_pos hs]
            apply ih
            · rw [List.length_tail]; omega
            · rw [List.length_tail]; omega
          · simp [popFrontLoop, hb, hi, if_neg hs]

theorem trimBackLoop_nil (f : ℕ) : trimBackLoop f [] = .ok [] := by
  cases f <;> simp [trimBackLoop]

theorem trimFrontLoop_nil (f : ℕ) : trimFrontLoop f [] = .ok [] := by
  cases f <;> simp [trimFrontLoop]

theorem trimBackLoop_fuel_mono : ∀ (f g : ℕ) (q : List L),
    q.length ≤ f → q.length ≤ g →
    trimBackLoop f q = trimBackLoop g q := by
  intro f
  induction f with
  | zero =>
    intro g q hf _
    have hq : q = [] := List.length_eq_zero.mp (Nat.le_zero.mp hf)
    subst hq
    rw [trimBackLoop_nil, trimBackLoop_nil]
  | succ n ih =>
    intro g q hf hg
    cases g with
    | zero =>
      have hq : q = [] := List.length_eq_zero.mp (Nat.le_zero.mp hg)
      subst hq
      rw [trimBackLoop_nil, trimBackLoop_nil]
    | succ m =>
      by_cases h3 : 3 ≤ q.length
      · cases hh : q.head? with
        | none => simp [trimBackLoop, h3, hh]
        | some fr =>
          cases hb : back2 q with
          | none => simp [trimBackLoop, h3, hh, hb]
          | some pr =>
            obtain ⟨b1, b2⟩ := pr
            cases hi : b1.intersection b2 with
            | error e => simp [trimBackLoop, h3, hh, hb, hi]
            | ok p =>
              by_cases hs : 0 < fr.side p
              · simp only [trimBackLoop, if_pos h3, hh, hb, hi, if_pos hs]
                apply ih
                · rw [List.length_dropLast]; omega
                · rw [List.length_dropLast]; omega
              · simp [trimBackLoop, h3, hh, hb, hi, if_neg hs]
      · simp [trimBackLoop, h3]

theorem trimFrontLoop_fuel_mono : ∀ (f g : ℕ) (q : List L),
    q.length ≤ f → q.length ≤ g →
    trimFrontLoop f q = trimFrontLoop g q := by
  intro f
  induction f with
  | zero =>
    intro g q hf _
    have hq : q = [] := List.length_eq_zero.mp (Nat.le_zero.mp hf)
    subst hq
    rw [trimFrontLoop_nil, trimFrontLoop_nil]
  | succ n ih =>
    intro g q hf hg
    cases g with
    | zero =>
      have hq : q = [] := List.length_eq_zero.mp (Nat.le_zero.mp hg)
      subst hq
      rw [trimFrontLoop_nil, trimFrontLoop_nil]
    | succ m =>
      by_cases h3 : 3 ≤ q.length
      · cases hh : q.getLast? with
        | none => simp [trimFrontLoop, h3, hh]
        | some bk =>
          cases hb : front2 q with
          | none => simp [trimFrontLoop, h3, hh, hb]
          | some pr =>
            obtain ⟨f1, f2⟩ := pr
            cases hi : f1.intersection f2 with
            | error e => simp [trimFrontLoop, h3, hh, hb, hi]
            | ok p =>
              by_cases hs : 0 < bk.side p
              · simp only [trimFrontLoop, if_pos h3, hh, hb, hi, if_pos hs]
                apply ih
                · rw [List.length_tail]; omega
                · rw [List.length_tail]; omega
              · simp [trimFrontLoop, h3, hh, hb, hi, if_neg hs]
      · simp [trimFrontLoop, h3]

theorem popBackLoop_error_eq (h : L) : ∀ (f : ℕ) (q : List L) (e : GeoErr),
    popBackLoop f h q = .error e → e = .degenerateGeometry := by
  intro f
  induction f with
  | zero => intro q e he; simp [popBackLoop] at he
  | succ n ih =>
    intro q e he
    unfold popBackLoop at he
    split at he
    · simp at he
    · split at he
      · next e2 hi =>
        injection he with he
        exact he ▸ intersection_error_eq hi
      · split at he
        · exact ih _ _ he
        · simp at he

theorem popFrontLoop_error_eq (h : L) : ∀ (f : ℕ) (q : List L) (e : GeoErr),
    popFrontLoop f h q = .error e → e = .degenerateGeometry := by
  intro f
  induction f with
  | zero => intro q e he; simp [popFrontLoop] at he
  | succ n ih =>
    intro q e he
    unfold popFrontLoop at he
    split at he
    · simp at he
    · split at he
      · next e2 hi =>
        injection he with he
        exact he ▸ intersection_error_eq hi
      · split at he
        · exact ih _ _ he
        · simp at he

theorem trimBackLoop_error_eq : ∀ (f : ℕ) (q : List L) (e : GeoErr),
    trimBackLoop f q = .error e → e = .degenerateGeometry := by
  intro f
  induction f with
  | zero => intro q e he; simp [trimBackLoop] at he
  | succ n ih =>
    intro q e he
    unfold trimBackLoop at he
    split at he
    · split at he
      · split at he
        · next e2 hi =>
          injection he with he
          exact he ▸ intersection_error_eq hi
        · split at he
          · exact ih _ _ he
          · simp at he
      · simp at he
    · simp at he

theorem trimFrontLoop_error_eq : ∀ (f : ℕ) (q : List L) (e : GeoErr),
    trimFrontLoop f q = .error e → e = .degenerateGeometry := by
  intro f
  induction f with
  | zero => intro q e he; simp [trimFrontLoop] at he
  | succ n ih =>
    intro q e he
    unfold trimFrontLoop at he
    split at he
    · split at he
      · split at he
        · next e2 hi =>
          injection he with he
          exact he ▸ intersection_error_eq hi
        · split at he
          · exact ih _ _ he
          · simp at he
      · simp at he
    · simp at he

theorem sweepStep_error_eq (q : List L) (h : L) (e : GeoErr)
    (he : sweepStep q h = .error e) : e = .degenerateGeometry := by
  unfold sweepStep at he
  split at he
  · next e2 hb =>
    injection he with he
    exact he ▸ popBackLoop_error_eq h _ _ _ hb
  · split at he
    · next e2 hf =>
      injection he with he
      exact he ▸ popFrontLoop_error_eq h _ _ _ hf
    · split at he
      · split at he
        · split at he
          · simp at he
          · split at he
            · simp at he
            · simp at he
        · simp at he
      · simp at he

theorem sweepList_error_eq : ∀ (Hs q : List L) (e : GeoErr),
    sweepList q Hs = .error e → e = .degenerateGeometry := by
  intro Hs
  induction Hs with
  | nil => intro q e he; simp [sweepList] at he
  | cons h rest ih =>
    intro q e he
    unfold sweepList at he
    split at he
    · next e2 hs =>
      injection he with he
      exact he ▸ sweepStep_error_eq q h _ hs
    · simp at he
    · exact ih _ _ he

theorem extractLoop_error_eq : ∀ (ps : List (L × L)) (e : GeoErr),
    extractLoop ps = .error e → e = .degenerateGeometry := by
  intro ps
  induction ps with
  | nil => intro e he; simp [extractLoop] at he
  | cons pr rest ih =>
    intro e he
    obtain ⟨a, b⟩ := pr
    unfold extractLoop at he
    split at he
    · next e2 hi =>
      injection he with he
      exact he ▸ intersection_error_eq hi
    · split at he
      · next e2 hrec =>
        injection he with he
        exact he ▸ ih _ hrec
      · simp at he

theorem halfplane_intersect_error_eq (H : List L) (e : GeoErr)
    (he : halfplane_intersect H = .error e) : e = .degenerateGeometry := by
  unfold halfplane_intersect at he
  split at he
  · next e2 hs =>
    injection he with he
    exact he ▸ sweepList_error_eq _ _ _ hs
  · simp at he
  · split at he
    · next e2 ht =>
      injection he with he
      exact he ▸ trimBackLoop_error_eq _ _ _ ht
    · split at he
      · next e2 ht =>
        injection he with he
        exact he ▸ trimFrontLoop_error_eq _ _ _ ht
      · split at he
        · simp at he
        · exact extractLoop_error_eq _ _ he

theorem sweepStep_len (q : List L) (h : L) :
    stepLen (sweepStep q h) ≤ q.length + 1 := by
  unfold sweepStep
  split
  · simp [stepLen]
  · next q1 hb =>
    have h1 : q1.length ≤ q.length := by
      have hlen := popBackLoop_len h q.length q
      rw [hb] at hlen
      simpa [exceptLen] using hlen
    split
    · simp [stepLen]
    · next q2 hf =>
      have h2 : q2.length ≤ q1.length := by
        have hlen := popFrontLoop_len h q1.length q1
        rw [hf] at hlen
        simpa [exceptLen] using hlen
      split
      · split
        · split
          · simp [stepLen]
          · split
            · simp only [stepLen, List.length_append, List.length_dropLast,
                List.length_singleton]
              omega
            · simp only [stepLen]; omega
        · simp only [stepLen, List.length_append, List.length_singleton]; omega
      · simp only [stepLen, List.length_append, List.length_singleton]; omega

theorem sweepList_len : ∀ (Hs q : List L),
    stepLen (sweepList q Hs) ≤ q.length + Hs.length := by
  intro Hs
  induction Hs with
  | nil => intro q; simp [sweepList, stepLen]
  | cons h rest ih =>
    intro q
    unfold sweepList
    split
    · simp [stepLen]
    · simp [stepLen]
    · next q2 hs =>
      have h2 : q2.length ≤ q.length + 1 := by
        have hlen := sweepStep_len q h
        rw [hs] at hlen
        simpa [stepLen] using hlen
      calc stepLen (sweepList q2 rest) ≤ q2.length + rest.length := ih q2
        _ ≤ q.length + (h :: rest).length := by
          simp only [List.length_cons]; omega

theorem augment_eq (H : List L) : augment H = H ++ List.replicate 4 bbSeed := by
  have hrot : rotL (rotL (rotL (rotL bbSeed))) = bbSeed := by
    with_unfolding_all rfl
  have h4 : bbLoop 4 (H.map Entry.orig, bbSeed) =
      (H.map Entry.orig ++ [Entry.bbRef] ++ [Entry.bbRef] ++ [Entry.bbRef]
          ++ [Entry.bbRef],
        rotL (rotL (rotL (rotL bbSeed)))) := rfl
  show (bbLoop 4 (H.map Entry.orig, bbSeed)).1.map
      (deref (bbLoop 4 (H.map Entry.orig, bbSeed)).2) = H ++ List.replicate 4 bbSeed
  rw [h4, hrot]
  have hid : deref bbSeed ∘ Entry.orig = id := funext fun l => rfl
  simp [deref, List.map_map, List.replicate, hid]

theorem popBackLoop_succ_eq (f : ℕ) (h : L) (q : List L) :
    popBackLoop (f + 1) h q =
      match back2 q with
      | none => .ok q
      | some (b1, b2) =>
        match b1.intersection b2 with
        | .error e => .error e
        | .ok p =>
          if 0 < h.side p then popBackLoop f h q.dropLast else .ok q := rfl

/-- C7, amended: the call contract of the sketch takes only the half-plane
collection (the bounding magnitude is the module constant `INF = 10^18`) and
the sweep's comparisons are strict comparisons against zero, matching no
positive tolerance: for every `ε > 0` there is a configuration whose side
value `ε/2` is within `ε` of zero (a boundary point under the spec's
convention) on which the back-pop comparison nevertheless fires. -/
theorem c7_no_positive_tolerance :
    ∀ ε : ℚ, 0 < ε →
      popBackLoop 2 ⟨⟨0, -(ε / 2)⟩, ⟨1, 0⟩⟩ [c7a, c7b] = .ok [c7a] ∧
        L.side ⟨⟨0, -(ε / 2)⟩, ⟨1, 0⟩⟩ ⟨0, 0⟩ = ε / 2 ∧
        |L.side ⟨⟨0, -(ε / 2)⟩, ⟨1, 0⟩⟩ ⟨0, 0⟩| ≤ ε := by
  intro ε hε
  have hside : L.side ⟨⟨0, -(ε / 2)⟩, ⟨1, 0⟩⟩ ⟨0, 0⟩ = ε / 2 := by
    simp only [L.side, cross, P.sub]
    ring
  have hcond : 0 < L.side ⟨⟨0, -(ε / 2)⟩, ⟨1, 0⟩⟩ ⟨0, 0⟩ := by
    rw [hside]; exact half_pos hε
  refine ⟨?_, hside, ?_⟩
  · have hb2 : back2 [c7a, c7b] = some (c7b, c7a) := rfl
    have hint : L.intersection c7b c7a = .ok ⟨0, 0⟩ := by with_unfolding_all rfl
    rw [show (2 : ℕ) = 1 + 1 from rfl, popBackLoop_succ_eq, hb2]
    simp only [hint, if_pos hcond]
    rw [show List.dropLast [c7a, c7b] = [c7a] from rfl,
      show (1 : ℕ) = 0 + 1 from rfl, popBackLoop_succ_eq,
      show back2 [c7a] = none from rfl]
  · rw [hside, abs_of_pos (half_pos hε)]
    linarith

/-- Witness for the C7 amended theorem at the concrete tolerance `ε = 2`. -/
theorem c7_no_positive_tolerance_witness :
    popBackLoop 2 ⟨⟨0, -((2 : ℚ) / 2)⟩, ⟨1, 0⟩⟩ [c7a, c7b] = .ok [c7a] ∧
      L.side ⟨⟨0, -((2 : ℚ) / 2)⟩, ⟨1, 0⟩⟩ ⟨0, 0⟩ = 2 / 2 ∧
      |L.side ⟨⟨0, -((2 : ℚ) / 2)⟩, ⟨1, 0⟩⟩ ⟨0, 0⟩| ≤ 2 :=
  c7_no_positive_tolerance 2 (by norm_num)

/-- C8, amended: the call performs no input validation and never reports an
Invalid-Input error: on every input (zero-direction half-planes included) it
either returns a polygon value normally or fails with the Degenerate-Geometry
error, so an invalid half-plane is never surfaced to the caller — it is
processed like any other (see `c8_counterexample`). -/
theorem c8_no_invalid_input_report (H : List L) :
    halfplane_intersect H = .error .degenerateGeometry ∨
      ∃ ps : List P, halfplane_intersect H = .ok ps := by
  cases hr : halfplane_intersect H with
  | error e =>
    have he := halfplane_intersect_error_eq H e hr
    subst he
    exact Or.inl rfl
  | ok ps => exact Or.inr ⟨ps, rfl⟩

/-- C9, amended: the call mutates the caller-supplied collection: it appends
the four (aliased) bounding entries to the caller's list and sorts it in
place, so after the call the caller's collection has length `n + 4` and is a
permutation of the original elements plus four copies of the final bounding
half-plane state. -/
theorem c9_caller_collection_mutated (H : List L) :
    (callerListAfter H).length = H.length + 4 ∧
      List.Perm (callerListAfter H) (H ++ List.replicate 4 bbSeed) := by
  have ha : augment H = H ++ List.replicate 4 bbSeed := augment_eq H
  constructor
  · show (sortH (augment H)).length = H.length + 4
    unfold sortH
    rw [List.length_insertionSort, ha]
    simp
  · show List.Perm (sortH (augment H)) (H ++ List.replicate 4 bbSeed)
    rw [← ha]
    exact List.perm_insertionSort _ (augment H)

/-- C10: `halfplane_intersect` terminates on every finite input.  Each inner
while-loop (both sweep pop loops and both final trim loops) pops one deque
element per iteration, so fuel equal to the deque length is enough: any
larger fuel computes the same result (the loops terminate within `q.length`
iterations).  The deque grows by at most one element per processed
half-plane (`sweepStep` bound), and processing a list of half-planes grows
it by at most the list length (`sweepList` bound); the outer loop is a
structural fold running once per half-plane, so the whole computation is a
total function of its input. -/
theorem c10_loops_bounded (h : L) (q Hs : List L) (f : ℕ) :
    (q.length ≤ f → popBackLoop f h q = popBackLoop q.length h q) ∧
      (q.length ≤ f → popFrontLoop f h q = popFrontLoop q.length h q) ∧
      (q.length ≤ f → trimBackLoop f q = trimBackLoop q.length q) ∧
      (q.length ≤ f → trimFrontLoop f q = trimFrontLoop q.length q) ∧
      exceptLen (popBackLoop f h q) ≤ q.length ∧
      exceptLen (popFrontLoop f h q) ≤ q.length ∧
      stepLen (sweepStep q h) ≤ q.length + 1 ∧
      stepLen (sweepList q Hs) ≤ q.length + Hs.length :=
  ⟨fun hf => popBackLoop_fuel_mono h f q.length q hf le_rfl,
   fun hf => popFrontLoop_fuel_mono h f q.length q hf le_rfl,
   fun hf => trimBackLoop_fuel_mono f q.length q hf le_rfl,
   fun hf => trimFrontLoop_fuel_mono f q.length q hf le_rfl,
   popBackLoop_len h f q, popFrontLoop_len h f q,
   sweepStep_len q h, sweepList_len Hs q⟩

/-- Witness for C10 at a concrete deque, half-plane, and fuel. -/
theorem c10_loops_bounded_witness :
    (popBackLoop 2 c7h [c7a] = popBackLoop [c7a].length c7h [c7a]) ∧
      (popFrontLoop 2 c7h [c7a] = popFrontLoop [c7a].length c7h [c7a]) ∧
      (trimBackLoop 2 [c7a] = trimBackLoop [c7a].length [c7a]) ∧
      (trimFrontLoop 2 [c7a] = trimFrontLoop [c7a].length [c7a]) ∧
      exceptLen (popBackLoop 2 c7h [c7a]) ≤ [c7a].length ∧
      exceptLen (popFrontLoop 2 c7h [c7a]) ≤ [c7a].length ∧
      stepLen (sweepStep [c7a] c7h) ≤ [c7a].length + 1 ∧
      stepLen (sweepList [c7a] [c7b]) ≤ [c7a].length + [c7b].length := by
  obtain ⟨a1, a2, a3, a4, a5, a6, a7, a8⟩ := c10_loops_bounded c7h [c7a] [c7b] 2
  exact ⟨a1 (by decide), a2 (by decide), a3 (by decide), a4 (by decide),
    a5, a6, a7, a8⟩
